import Mathlib

/-!
Verification development for the micom community-modeling package.

The repository snapshot ships only the documentation artifacts of the
optimization core (autoapi stubs for `micom.problems`, release notes,
tutorial notebooks and visualization templates); the Python modules
`micom/problems.py`, `micom/community.py` and the solver layer are not
part of the snapshot.  All definitions below are therefore modelled from
the specification of the cooperative tradeoff engine (states
INIT, INDIVIDUAL_MAX, COMMUNITY_BOUND, REGULARIZE, DONE), the solver
abstraction, the model builder and the result extraction, staying as
close as possible to the spec text and the shipped docstrings.

Conventions.  Machine floats are modelled by exact rationals.  A flux
vector is a function `Fin nRxns → ℚ`; per-taxon growth values are the
abundance-scaled biomass fluxes of the merged model, so the total
community growth is their plain sum.  Optimization problems are stated
relationally: a value is an optimum when it is the greatest element of
the achievable-value set (`IsGreatest`), and a regularized solution is a
feasible point whose deviation objective is minimal on the feasible set.
-/

namespace Micom

/-! ## Stoichiometric community model (flux level) -/

/-- Modelled from the spec: the merged community model of §3/§4.1–§4.2.
Rows of `S` are the internal metabolites (boundary metabolites have no
row; exchange reactions are ordinary columns), columns are reactions,
and `lb`/`ub` are the per-reaction flux bounds.  Structural topology is
fixed after construction; media changes and knockouts mutate only the
bounds. -/
structure CommunityModel (nMets nRxns : ℕ) where
  S : Fin nMets → Fin nRxns → ℚ
  lb : Fin nRxns → ℚ
  ub : Fin nRxns → ℚ

/-- Modelled from the spec: steady-state mass balance, one equality
constraint per (internal) metabolite: `S * v = 0` row by row. -/
def massBalanced {m n : ℕ} (M : CommunityModel m n) (v : Fin n → ℚ) : Prop :=
  ∀ i : Fin m, ∑ j, M.S i j * v j = 0

/-- Modelled from the spec: the box constraints `lb ≤ v ≤ ub`. -/
def inBounds {m n : ℕ} (M : CommunityModel m n) (v : Fin n → ℚ) : Prop :=
  ∀ j : Fin n, M.lb j ≤ v j ∧ v j ≤ M.ub j

/-- Modelled from the spec: a feasible flux vector satisfies the bounds
and every mass-balance equality. -/
def feasibleFlux {m n : ℕ} (M : CommunityModel m n) (v : Fin n → ℚ) : Prop :=
  inBounds M v ∧ massBalanced M v

/-- Modelled from the spec: a bound mutation (medium change, knockout,
growth-rate floor) rewrites the bounds of one reaction and never touches
the stoichiometry. -/
structure BoundChange (nRxns : ℕ) where
  rxn : Fin nRxns
  newLb : ℚ
  newUb : ℚ

/-- Modelled from the spec: apply one bound mutation to the model. -/
def applyChange {m n : ℕ} (M : CommunityModel m n) (c : BoundChange n) :
    CommunityModel m n :=
  { M with
    lb := Function.update M.lb c.rxn c.newLb
    ub := Function.update M.ub c.rxn c.newUb }

/-- Modelled from the spec: apply a sequence of bound mutations. -/
def applyChanges {m n : ℕ} (M : CommunityModel m n) (cs : List (BoundChange n)) :
    CommunityModel m n :=
  cs.foldl applyChange M

/-- Modelled from the spec: a solve returns an optimum of some (linear or
quadratic) objective over the feasible fluxes of the current model; every
stage of the tradeoff pipeline, a knockout solve and a plain FBA solve
are all instances for suitable objectives and bound mutations. -/
def IsOptimalFlux {m n : ℕ} (M : CommunityModel m n)
    (obj : (Fin n → ℚ) → ℚ) (v : Fin n → ℚ) : Prop :=
  feasibleFlux M v ∧ ∀ w, feasibleFlux M w → obj w ≤ obj v

lemma applyChange_S {m n : ℕ} (M : CommunityModel m n) (c : BoundChange n) :
    (applyChange M c).S = M.S := rfl

lemma applyChanges_S {m n : ℕ} (M : CommunityModel m n)
    (cs : List (BoundChange n)) : (applyChanges M cs).S = M.S := by
  induction cs generalizing M with
  | nil => rfl
  | cons c cs ih => simpa [applyChanges, List.foldl_cons] using ih (applyChange M c)

/-! ## Growth-level view of the tradeoff state machine -/

/-- Modelled from the spec: the growth-level view of a built community.
`a` records the relative abundances; `G` is the set of per-taxon
abundance-scaled growth-rate vectors realizable by some feasible flux
vector of the merged model (the projection of the flux polytope onto the
biomass coordinates). -/
structure TCommunity (n : ℕ) where
  a : Fin n → ℚ
  G : Set (Fin n → ℚ)

/-- Modelled from the spec: total community growth is the sum of the
abundance-scaled biomass fluxes (the community biomass reaction). -/
def communityGrowth {n : ℕ} (g : Fin n → ℚ) : ℚ :=
  ∑ i, g i

/-- Modelled from the spec: INDIVIDUAL_MAX — taxon `i`'s maximal
achievable (scaled) growth over the community polytope, the rest of the
community unconstrained. -/
def IsIndividualMax {n : ℕ} (C : TCommunity n) (i : Fin n) (mx : ℚ) : Prop :=
  IsGreatest {x | ∃ g ∈ C.G, g i = x} mx

/-- Modelled from the spec: the taxa recorded as able to grow — those
whose individual maximum is not below `atol`. -/
def growingSet {n : ℕ} (maxg : Fin n → ℚ) (atol : ℚ) : Finset (Fin n) :=
  Finset.univ.filter (fun i => atol ≤ maxg i)

/-- Modelled from the spec: the COMMUNITY_BOUND feasible set — members of
the community polytope whose growth is at least `frac` times the
individual maximum for every taxon recorded as growing; taxa below
`atol` impose no floor. -/
def flooredFeasible {n : ℕ} (C : TCommunity n) (maxg : Fin n → ℚ)
    (atol frac : ℚ) (g : Fin n → ℚ) : Prop :=
  g ∈ C.G ∧ ∀ i, atol ≤ maxg i → frac * maxg i ≤ g i

/-- Modelled from the spec: the single-stage (unconstrained) community
FBA optimum — the greatest total community growth over the polytope. -/
def IsFBAOptimum {n : ℕ} (C : TCommunity n) (mu : ℚ) : Prop :=
  IsGreatest {x | ∃ g ∈ C.G, communityGrowth g = x} mu

/-- Modelled from the spec: COMMUNITY_BOUND — the optimal total
community growth subject to the per-taxon fractional floors. -/
def IsCommunityBoundOpt {n : ℕ} (C : TCommunity n) (maxg : Fin n → ℚ)
    (atol frac mu : ℚ) : Prop :=
  IsGreatest {x | ∃ g, flooredFeasible C maxg atol frac g ∧ communityGrowth g = x} mu

/-- Modelled from the spec: the quadratic cooperativity cost — sum of
squared differences between each taxon's current and maximal growth. -/
def sqDeviation {n : ℕ} (maxg g : Fin n → ℚ) : ℚ :=
  ∑ i, (g i - maxg i) ^ 2

/-- Modelled from the spec: the linear (Manhattan) cooperativity cost —
sum of absolute differences between current and maximal growth. -/
def absDeviation {n : ℕ} (maxg g : Fin n → ℚ) : ℚ :=
  ∑ i, |g i - maxg i|

/-- Modelled from the spec: the deviation objective used by REGULARIZE,
quadratic when `quad` is true, else the Manhattan fallback. -/
def deviation {n : ℕ} (quad : Bool) (maxg g : Fin n → ℚ) : ℚ :=
  if quad then sqDeviation maxg g else absDeviation maxg g

/-- Modelled from the spec: `select_regularization` chooses the quadratic
formulation exactly when the active backend is QP-capable. -/
def select_regularization (qpCapable : Bool) : Bool :=
  qpCapable

/-- Modelled from the spec and the `regularize_l2_norm` docstring:
REGULARIZE keeps the fractional floors, maintains at least the community
growth `minGrowth` (the tight-inequality form of fixing the optimum) and
minimizes the selected deviation objective over that set. -/
def IsRegularizedIneq {n : ℕ} (C : TCommunity n) (maxg : Fin n → ℚ)
    (atol frac : ℚ) (quad : Bool) (minGrowth : ℚ) (g : Fin n → ℚ) : Prop :=
  flooredFeasible C maxg atol frac g ∧ minGrowth ≤ communityGrowth g ∧
    ∀ h, flooredFeasible C maxg atol frac h → minGrowth ≤ communityGrowth h →
      deviation quad maxg g ≤ deviation quad maxg h

/-- Modelled from the spec: result extraction zeroes any growth value
below `atol` (tolerance-based zeroing of §4.6); in particular taxa that
cannot grow are reported as zero. -/
def resultRates {n : ℕ} (atol : ℚ) (g : Fin n → ℚ) : Fin n → ℚ :=
  fun i => if g i < atol then 0 else g i

/-- Modelled from the spec: the number of taxa achieving positive
(reported) growth in a solution. -/
def countPositive {n : ℕ} (r : Fin n → ℚ) : ℕ :=
  (Finset.univ.filter (fun i => 0 < r i)).card

/-! ## Error taxonomy and the staged pipeline -/

/-- Modelled from the spec §7: the errors a tradeoff run can surface.
`infeasibleTradeoff` marks an infeasible COMMUNITY_BOUND stage, fatal for
the current medium/abundance/fraction triple; `solverNumerical` marks a
numerical backend failure.  There is no error for a single taxon that
cannot grow: that situation is absorbed and recorded, never raised. -/
inductive MicomError where
  | infeasibleTradeoff
  | solverNumerical
  deriving DecidableEq

/-- Modelled from the spec: the outcome of a tradeoff run — packaged
per-taxon growth rates on success, or a fatal error. -/
inductive Outcome (n : ℕ) where
  | ok (rates : Fin n → ℚ)
  | err (e : MicomError)

/-- Modelled from the spec §4.4: one complete cooperative-tradeoff run as
a relation between the community, the memoized individual maxima and the
outcome.  A successful run passes COMMUNITY_BOUND and REGULARIZE and
packages the tolerance-zeroed rates; an infeasible COMMUNITY_BOUND stage
is the only fatal branch of the state machine itself. -/
inductive TradeoffRun {n : ℕ} (C : TCommunity n) (maxg : Fin n → ℚ)
    (atol frac : ℚ) (quad : Bool) : Outcome n → Prop where
  | success (mu : ℚ) (g : Fin n → ℚ)
      (hmax : ∀ i, IsIndividualMax C i (maxg i))
      (hopt : IsCommunityBoundOpt C maxg atol frac mu)
      (hreg : IsRegularizedIneq C maxg atol frac quad mu g) :
      TradeoffRun C maxg atol frac quad (.ok (resultRates atol g))
  | infeasible
      (hmax : ∀ i, IsIndividualMax C i (maxg i))
      (hinf : ¬ ∃ g, flooredFeasible C maxg atol frac g) :
      TradeoffRun C maxg atol frac quad (.err .infeasibleTradeoff)

/-! ## Solver abstraction layer -/

/-- Modelled from the spec §4.3: the two interchangeable backends of the
hybrid solver — a fast approximate QP-capable one and a slower, more
numerically robust LP/QP one. -/
inductive Backend where
  | fast
  | robust
  deriving DecidableEq

/-- Modelled from the spec: what one backend reports for one problem. -/
inductive BackendStatus (σ : Type) where
  | optimal (s : σ)
  | numericalIssue
  | infeasible

/-- Modelled from the spec: the outcome the solver abstraction surfaces
to its caller. -/
inductive SolveOutcome (σ : Type) where
  | ok (s : σ)
  | errNumerical
  | errInfeasible

/-- Modelled from the spec: interpretation of a single backend report. -/
def interpretStatus {σ : Type} : BackendStatus σ → SolveOutcome σ
  | .optimal s => .ok s
  | .numericalIssue => .errNumerical
  | .infeasible => .errInfeasible

/-- Modelled from the spec §4.3: the hybrid solve.  A forced backend is
used alone; otherwise the fast backend is tried first and any non-optimal
report (non-convergence, numerical warning, unexpected infeasibility)
triggers exactly one retry on the robust backend, whose report is then
surfaced.  The second component records which backends were consulted, in
order. -/
def hybridSolve {σ : Type} (run : Backend → BackendStatus σ)
    (forced : Option Backend) : SolveOutcome σ × List Backend :=
  match forced with
  | some b => (interpretStatus (run b), [b])
  | none =>
    match run .fast with
    | .optimal s => (.ok s, [.fast])
    | _ => (interpretStatus (run .robust), [.fast, .robust])

/-! ## Community construction and validation -/

/-- Modelled from the spec §4.1/§6: the per-taxon input handed to the
builder by the model loader — an identifier, a relative abundance and
the detected biomass reaction (none when no biomass reaction could be
detected in the taxon's model). -/
structure TaxonSpec where
  id : String
  abundance : ℚ
  biomassId : Option String
  deriving DecidableEq

/-- Modelled from the spec §7: a malformed merged model, raised before
any solve is attempted, carrying the offending taxon. -/
inductive ModelError where
  | missingBiomass (taxon : String)
  | nonPositiveAbundance (taxon : String)
  deriving DecidableEq

/-- Modelled from the spec: the taxon an error message points at. -/
def ModelError.offender : ModelError → String
  | .missingBiomass t => t
  | .nonPositiveAbundance t => t

/-- Modelled from the spec §4.1: validation of the taxa during community
construction; the first offending taxon aborts the build. -/
def checkTaxa : List TaxonSpec → Except ModelError Unit
  | [] => .ok ()
  | t :: ts =>
    if t.biomassId = none then .error (.missingBiomass t.id)
    else if t.abundance ≤ 0 then .error (.nonPositiveAbundance t.id)
    else checkTaxa ts

/-- Modelled from the spec: building the community model validates every
taxon first and only then returns the merged taxon list; the return type
carries no solver call, so a `ModelError` is raised before any solve. -/
def build_community (ts : List TaxonSpec) : Except ModelError (List TaxonSpec) :=
  match checkTaxa ts with
  | .ok _ => .ok ts
  | .error e => .error e

/-! ## Taxonomy input processing -/

/-- Modelled from the spec and the community tutorial: the taxonomy
table handed to the `Community` constructor — taxon identifiers plus an
optional abundance column (`none` when the input table has no
"abundance" column). -/
structure Taxonomy where
  ids : List String
  abundanceCol : Option (List ℚ)

/-- Modelled from the spec: raw abundances — the abundance column when
present, otherwise every taxon is assigned the same default quantity 1. -/
def rawAbundances (t : Taxonomy) : List ℚ :=
  match t.abundanceCol with
  | some ab => ab
  | none => List.replicate t.ids.length 1

/-- Modelled from the spec: abundances are normalized internally to
relative abundances (each entry divided by the total). -/
def relativeAbundances (t : Taxonomy) : List ℚ :=
  (rawAbundances t).map (fun x => x / (rawAbundances t).sum)

/-! ## Concrete test communities

Small growth polytopes with hand-checkable optima, used to instantiate
the stage relations on explicit inputs. -/

/-- Two taxa competing for one shared unit of limiting substrate: each
taxon alone reaches growth 1, but the growth values always sum to at
most 1. -/
def exShare : TCommunity 2 :=
  { a := fun _ => 1 / 2
    G := {g | 0 ≤ g 0 ∧ 0 ≤ g 1 ∧ g 0 + g 1 ≤ 1} }

lemma mem_exShare {g : Fin 2 → ℚ} :
    g ∈ exShare.G ↔ 0 ≤ g 0 ∧ 0 ≤ g 1 ∧ g 0 + g 1 ≤ 1 := Iff.rfl

lemma communityGrowth_two (g : Fin 2 → ℚ) : communityGrowth g = g 0 + g 1 := by
  simp [communityGrowth, Fin.sum_univ_two]

lemma exShare_indMax (i : Fin 2) : IsIndividualMax exShare i 1 := by
  constructor
  · fin_cases i
    · exact ⟨![1, 0], by norm_num [mem_exShare], by norm_num⟩
    · exact ⟨![0, 1], by norm_num [mem_exShare], by norm_num⟩
  · rintro x ⟨g, hg, rfl⟩
    obtain ⟨h0, h1, hs⟩ := mem_exShare.mp hg
    fin_cases i <;> simp <;> linarith

lemma exShare_fba : IsFBAOptimum exShare 1 := by
  constructor
  · exact ⟨![1, 0], by norm_num [mem_exShare], by rw [communityGrowth_two]; norm_num⟩
  · rintro x ⟨g, hg, rfl⟩
    obtain ⟨h0, h1, hs⟩ := mem_exShare.mp hg
    rw [communityGrowth_two]
    linarith

lemma exShare_floor_one_empty :
    ¬ ∃ g, flooredFeasible exShare (fun _ => 1) (1 / 2) 1 g := by
  rintro ⟨g, hg, hf⟩
  obtain ⟨h0, h1, hs⟩ := mem_exShare.mp hg
  have hf0 := hf 0 (by norm_num)
  have hf1 := hf 1 (by norm_num)
  norm_num at hf0 hf1
  linarith

lemma exShare_convex : Convex ℚ exShare.G := by
  rintro g ⟨hg0, hg1, hgs⟩ h ⟨hh0, hh1, hhs⟩ s t hs ht hst
  refine ⟨?_, ?_, ?_⟩ <;> simp only [Pi.add_apply, Pi.smul_apply, smul_eq_mul]
  · have := mul_le_mul_of_nonneg_left hg0 hs
    have := mul_le_mul_of_nonneg_left hh0 ht
    nlinarith
  · nlinarith
  · nlinarith

/-- The symmetric point that the regularized solve selects on
`exShare` at fraction 1/2. -/
def halfPoint : Fin 2 → ℚ := fun _ => 1 / 2

lemma exShare_bound_half :
    IsCommunityBoundOpt exShare (fun _ => 1) (1 / 2) (1 / 2) 1 := by
  constructor
  · refine ⟨halfPoint, ⟨?_, ?_⟩, ?_⟩
    · exact mem_exShare.mpr (by norm_num [halfPoint])
    · intro i _
      fin_cases i <;> norm_num [halfPoint]
    · rw [communityGrowth_two]; norm_num [halfPoint]
  · rintro x ⟨g, ⟨hg, _⟩, rfl⟩
    obtain ⟨h0, h1, hs⟩ := mem_exShare.mp hg
    rw [communityGrowth_two]
    linarith

lemma exShare_reg_half :
    IsRegularizedIneq exShare (fun _ => 1) (1 / 2) (1 / 2) true 1 halfPoint := by
  refine ⟨⟨mem_exShare.mpr (by norm_num [halfPoint]), ?_⟩, ?_, ?_⟩
  · intro i _
    fin_cases i <;> norm_num [halfPoint]
  · rw [communityGrowth_two]; norm_num [halfPoint]
  · rintro h ⟨hh, _⟩ hmu
    obtain ⟨h0, h1, hs⟩ := mem_exShare.mp hh
    rw [communityGrowth_two] at hmu
    simp only [deviation, if_pos, sqDeviation, Fin.sum_univ_two, halfPoint]
    nlinarith [sq_nonneg (h 0 - h 1)]

/-- Two taxa with independent substrate pools: each can reach growth 1
regardless of the other, so even the fraction-1 floors are jointly
satisfiable. -/
def exFree : TCommunity 2 :=
  { a := fun _ => 1 / 2
    G := {g | 0 ≤ g 0 ∧ g 0 ≤ 1 ∧ 0 ≤ g 1 ∧ g 1 ≤ 1} }

lemma mem_exFree {g : Fin 2 → ℚ} :
    g ∈ exFree.G ↔ 0 ≤ g 0 ∧ g 0 ≤ 1 ∧ 0 ≤ g 1 ∧ g 1 ≤ 1 := Iff.rfl

lemma exFree_indMax (i : Fin 2) : IsIndividualMax exFree i 1 := by
  constructor
  · exact ⟨fun _ => 1, mem_exFree.mpr (by norm_num), by fin_cases i <;> norm_num⟩
  · rintro x ⟨g, hg, rfl⟩
    obtain ⟨h0, h0u, h1, h1u⟩ := mem_exFree.mp hg
    fin_cases i <;> simpa

lemma exFree_fba : IsFBAOptimum exFree 2 := by
  constructor
  · exact ⟨fun _ => 1, mem_exFree.mpr (by norm_num),
      by rw [communityGrowth_two]; norm_num⟩
  · rintro x ⟨g, hg, rfl⟩
    obtain ⟨h0, h0u, h1, h1u⟩ := mem_exFree.mp hg
    rw [communityGrowth_two]
    linarith

lemma exFree_floor_one :
    flooredFeasible exFree (fun _ => 1) (1 / 2) 1 (fun _ => 1) := by
  refine ⟨mem_exFree.mpr (by norm_num), ?_⟩
  intro i _
  norm_num

/-- Two growing taxa on one shared substrate pool where taxon 0 is twice
as substrate-efficient as taxon 1; the growth optimum pins taxon 1 to
its fractional floor, so its regularized growth value scales with the
fraction. -/
def exPin : TCommunity 2 :=
  { a := fun _ => 1 / 2
    G := {g | 0 ≤ g 0 ∧ 0 ≤ g 1 ∧ g 0 + 2 * g 1 ≤ 4} }

lemma mem_exPin {g : Fin 2 → ℚ} :
    g ∈ exPin.G ↔ 0 ≤ g 0 ∧ 0 ≤ g 1 ∧ g 0 + 2 * g 1 ≤ 4 := Iff.rfl

/-- Individual maxima of `exPin`: 4 for taxon 0 and 2 for taxon 1. -/
def maxgPin : Fin 2 → ℚ := ![4, 2]

/-- The unique regularized point of `exPin` at fraction `f`. -/
def pinPoint (f : ℚ) : Fin 2 → ℚ := ![4 - 4 * f, 2 * f]

lemma exPin_indMax (i : Fin 2) : IsIndividualMax exPin i (maxgPin i) := by
  constructor
  · fin_cases i
    · exact ⟨![4, 0], mem_exPin.mpr (by norm_num), by norm_num [maxgPin]⟩
    · exact ⟨![0, 2], mem_exPin.mpr (by norm_num), by norm_num [maxgPin]⟩
  · rintro x ⟨g, hg, rfl⟩
    obtain ⟨h0, h1, hs⟩ := mem_exPin.mp hg
    fin_cases i <;> simp [maxgPin] <;> linarith

lemma pinPoint_floored {f : ℚ} (h1 : 0 < f) (h2 : f ≤ 1 / 2) :
    flooredFeasible exPin maxgPin 1 f (pinPoint f) := by
  constructor
  · refine mem_exPin.mpr ⟨?_, ?_, ?_⟩ <;> simp [pinPoint] <;> linarith
  · intro i _
    fin_cases i <;> simp [maxgPin, pinPoint] <;> linarith

lemma pinPoint_growth (f : ℚ) : communityGrowth (pinPoint f) = 4 - 2 * f := by
  rw [communityGrowth_two]
  norm_num [pinPoint]
  ring

lemma exPin_unique {f : ℚ} (g : Fin 2 → ℚ)
    (hg : flooredFeasible exPin maxgPin 1 f g)
    (hmu : 4 - 2 * f ≤ communityGrowth g) : g = pinPoint f := by
  obtain ⟨hmem, hfl⟩ := hg
  obtain ⟨h0, hg1, hs⟩ := mem_exPin.mp hmem
  have hf0 := hfl 0 (by norm_num [maxgPin])
  have hf1 := hfl 1 (by norm_num [maxgPin])
  simp [maxgPin] at hf0 hf1
  rw [communityGrowth_two] at hmu
  have e1 : g 1 = 2 * f := by linarith
  have e0 : g 0 = 4 - 4 * f := by linarith
  funext i
  fin_cases i <;> simp [pinPoint, e0, e1]

lemma exPin_bound {f : ℚ} (h1 : 0 < f) (h2 : f ≤ 1 / 2) :
    IsCommunityBoundOpt exPin maxgPin 1 f (4 - 2 * f) := by
  constructor
  · exact ⟨pinPoint f, pinPoint_floored h1 h2, pinPoint_growth f⟩
  · rintro x ⟨g, ⟨hmem, hfl⟩, rfl⟩
    obtain ⟨h0, hg1, hs⟩ := mem_exPin.mp hmem
    have hf1 := hfl 1 (by norm_num [maxgPin])
    simp [maxgPin] at hf1
    rw [communityGrowth_two]
    linarith

lemma exPin_reg {f : ℚ} (h1 : 0 < f) (h2 : f ≤ 1 / 2) (quad : Bool) :
    IsRegularizedIneq exPin maxgPin 1 f quad (4 - 2 * f) (pinPoint f) := by
  refine ⟨pinPoint_floored h1 h2, le_of_eq (pinPoint_growth f).symm, ?_⟩
  intro h hh hmu
  rw [exPin_unique h hh hmu]

/-- A two-taxon community in which taxon 1 has no feasible biomass flux
at all (an essential nutrient is absent): its growth coordinate is
identically zero. -/
def exZero : TCommunity 2 :=
  { a := fun _ => 1 / 2
    G := {g | 0 ≤ g 0 ∧ g 0 ≤ 1 ∧ g 1 = 0} }

lemma mem_exZero {g : Fin 2 → ℚ} :
    g ∈ exZero.G ↔ 0 ≤ g 0 ∧ g 0 ≤ 1 ∧ g 1 = 0 := Iff.rfl

/-- Individual maxima of `exZero`: 1 for taxon 0, 0 for taxon 1. -/
def maxgZero : Fin 2 → ℚ := ![1, 0]

/-- The regularized point of `exZero`. -/
def zeroPoint : Fin 2 → ℚ := ![1, 0]

lemma exZero_indMax (i : Fin 2) : IsIndividualMax exZero i (maxgZero i) := by
  constructor
  · exact ⟨![1, 0], mem_exZero.mpr (by norm_num), by fin_cases i <;> norm_num [maxgZero]⟩
  · rintro x ⟨g, hg, rfl⟩
    obtain ⟨h0, h0u, h1⟩ := mem_exZero.mp hg
    fin_cases i <;> simp [maxgZero] <;> linarith [h1.le, h1.ge]

lemma zeroPoint_floored :
    flooredFeasible exZero maxgZero (1 / 2) (1 / 2) zeroPoint := by
  refine ⟨mem_exZero.mpr (by norm_num [zeroPoint]), ?_⟩
  intro i hi
  fin_cases i <;> simp_all [maxgZero, zeroPoint]

lemma exZero_unique (g : Fin 2 → ℚ)
    (hg : flooredFeasible exZero maxgZero (1 / 2) (1 / 2) g)
    (hmu : 1 ≤ communityGrowth g) : g = zeroPoint := by
  obtain ⟨hmem, _⟩ := hg
  obtain ⟨h0, h0u, h1⟩ := mem_exZero.mp hmem
  rw [communityGrowth_two] at hmu
  funext i
  fin_cases i <;> simp [zeroPoint] <;> linarith

lemma exZero_bound :
    IsCommunityBoundOpt exZero maxgZero (1 / 2) (1 / 2) 1 := by
  constructor
  · exact ⟨zeroPoint, zeroPoint_floored, by rw [communityGrowth_two]; norm_num [zeroPoint]⟩
  · rintro x ⟨g, ⟨hmem, _⟩, rfl⟩
    obtain ⟨h0, h0u, h1⟩ := mem_exZero.mp hmem
    rw [communityGrowth_two]
    linarith [h1.le]

lemma exZero_reg (quad : Bool) :
    IsRegularizedIneq exZero maxgZero (1 / 2) (1 / 2) quad 1 zeroPoint := by
  refine ⟨zeroPoint_floored, ?_, ?_⟩
  · rw [communityGrowth_two]; norm_num [zeroPoint]
  · intro h hh hmu
    rw [exZero_unique h hh hmu]

/-- A one-metabolite, two-reaction flux model: reaction 0 imports the
metabolite, reaction 1 consumes it. -/
def exM : CommunityModel 1 2 :=
  { S := fun _ j => if j = 0 then 1 else -1
    lb := ![0, 0]
    ub := ![1, 10] }

/-- A medium change tightening the import bound of `exM` to 1/2. -/
def exChange : BoundChange 2 := ⟨0, 0, 1 / 2⟩

/-- The consumption objective on `exM`. -/
def exObj (v : Fin 2 → ℚ) : ℚ := v 1

/-- The optimal flux vector of `exM` after the medium change. -/
def exV : Fin 2 → ℚ := ![1 / 2, 1 / 2]

lemma exM_opt : IsOptimalFlux (applyChanges exM [exChange]) exObj exV := by
  constructor
  · constructor
    · intro j
      fin_cases j <;>
        simp [applyChanges, applyChange, exM, exChange, exV, Function.update] <;>
        norm_num
    · intro i
      fin_cases i
      simp [applyChanges, applyChange, exM, exV, Fin.sum_univ_two]
  · rintro w ⟨hb, hm⟩
    have hbal := hm 0
    have hb0 := hb 0
    simp [applyChanges, applyChange, exM, exChange, Function.update,
      Fin.sum_univ_two] at hbal hb0
    simp [exObj, exV]
    linarith [hbal, hb0.2]

/-! ## Further helper lemmas -/

lemma checkTaxa_ok_iff (ts : List TaxonSpec) :
    checkTaxa ts = .ok () ↔ ∀ t ∈ ts, t.biomassId ≠ none ∧ 0 < t.abundance := by
  induction ts with
  | nil => simp [checkTaxa]
  | cons t ts ih =>
    by_cases hb : t.biomassId = none
    · simp [checkTaxa, hb]
    · by_cases ha : t.abundance ≤ 0
      · have hno : ¬ 0 < t.abundance := not_lt.mpr ha
        simp [checkTaxa, hb, ha, hno]
      · simp only [checkTaxa, if_neg hb, if_neg ha]
        rw [ih]
        simp only [List.mem_cons]
        constructor
        · intro h u hu
          rcases hu with rfl | hu
          · exact ⟨hb, not_le.mp ha⟩
          · exact h u hu
        · intro h u hu
          exact h u (Or.inr hu)

lemma checkTaxa_error (ts : List TaxonSpec) (e : ModelError)
    (h : checkTaxa ts = .error e) :
    ∃ t ∈ ts, t.id = e.offender ∧ (t.biomassId = none ∨ t.abundance ≤ 0) := by
  induction ts with
  | nil => simp [checkTaxa] at h
  | cons t ts ih =>
    by_cases hb : t.biomassId = none
    · simp only [checkTaxa, if_pos hb, Except.error.injEq] at h
      exact ⟨t, List.mem_cons_self t ts, by rw [← h]; rfl, Or.inl hb⟩
    · by_cases ha : t.abundance ≤ 0
      · simp only [checkTaxa, if_neg hb, if_pos ha, Except.error.injEq] at h
        exact ⟨t, List.mem_cons_self t ts, by rw [← h]; rfl, Or.inr ha⟩
      · simp only [checkTaxa, if_neg hb, if_neg ha] at h
        obtain ⟨u, hu, hid, hbad⟩ := ih h
        exact ⟨u, List.mem_cons_of_mem t hu, hid, hbad⟩

/-- A backend behavior where the fast backend hits a numerical issue and
the robust backend recovers. -/
def runFallback : Backend → BackendStatus ℚ := fun b =>
  match b with
  | .fast => .numericalIssue
  | .robust => .optimal 7

/-- A backend behavior where both backends fail numerically. -/
def runBadBoth : Backend → BackendStatus ℚ := fun _ => .numericalIssue

/-- A taxon list whose second member has abundance 0. -/
def badTaxa : List TaxonSpec :=
  [⟨"t_good", 1 / 2, some ("bio1")⟩, ⟨"t_bad", 0, some ("bio2")⟩]

/-- A five-taxon taxonomy without an abundance column. -/
def exTaxonomy : Taxonomy :=
  ⟨["ec1", "ec2", "ec3", "ec4", "ec5"], none⟩

/-! ## Claim theorems -/

/-- C6: every flux vector produced by any solve — an optimum of any
(linear or quadratic) objective over the community model after any
sequence of bound mutations (medium changes, knockouts, growth-rate
floors) — satisfies steady-state mass balance exactly: the
stoichiometric matrix of the original model times the flux vector is
zero at every internal metabolite (every row of `S`), hence within any
solver tolerance; bound mutations never touch `S`, so the invariant is
preserved across them. -/
theorem mass_balance_invariant {m n : ℕ} (M : CommunityModel m n)
    (cs : List (BoundChange n)) (obj : (Fin n → ℚ) → ℚ) (v : Fin n → ℚ)
    (hv : IsOptimalFlux (applyChanges M cs) obj v) :
    massBalanced M v := by
  have hS := applyChanges_S M cs
  have hbal := hv.1.2
  unfold massBalanced at hbal ⊢
  rw [hS] at hbal
  exact hbal

/-- C6 witness: the invariant instantiated on the concrete model `exM`
after a medium change, at the optimal flux vector of the consumption
objective. -/
theorem mass_balance_invariant_witness :
    IsOptimalFlux (applyChanges exM [exChange]) exObj exV ∧ massBalanced exM exV :=
  ⟨exM_opt, mass_balance_invariant exM [exChange] exObj exV exM_opt⟩

/-- C7: the hybrid solver honors a forced backend choice; otherwise it
always consults the fast backend first, falls back to the robust backend
exactly once (the consulted-backend trace is `[fast]` or
`[fast, robust]`, and `[fast]` exactly when the fast backend returned an
optimum), and surfaces a numerical-failure error only when neither
backend returned an optimum. -/
theorem hybrid_solver_policy {σ : Type} (run : Backend → BackendStatus σ)
    (b : Backend) :
    ((hybridSolve run (some b)).2 = [b]) ∧
    ((hybridSolve run none).2 = [.fast] ∨
      (hybridSolve run none).2 = [.fast, .robust]) ∧
    ((hybridSolve run none).2.head? = some .fast) ∧
    ((hybridSolve run none).2 = [.fast] ↔ ∃ s, run .fast = .optimal s) ∧
    ((hybridSolve run none).1 = .errNumerical →
      (∀ s, run .fast ≠ .optimal s) ∧ (∀ s, run .robust ≠ .optimal s)) := by
  cases hfast : run .fast <;> cases hrob : run .robust <;>
    simp [hybridSolve, interpretStatus, hfast, hrob]

/-- C7 witness: with both backends failing numerically, the numerical
error is surfaced and the theorem certifies that neither backend had
returned an optimum; with only the fast backend failing, the fallback
result is an optimum after consulting both backends. -/
theorem hybrid_solver_policy_witness :
    ((∀ s : ℚ, runBadBoth .fast ≠ .optimal s) ∧
      (∀ s : ℚ, runBadBoth .robust ≠ .optimal s)) ∧
    hybridSolve runFallback none = (.ok 7, [.fast, .robust]) :=
  ⟨(hybrid_solver_policy runBadBoth .fast).2.2.2.2 rfl, rfl⟩

/-- C8: building the community model succeeds exactly when every taxon
has a detectable biomass reaction and positive abundance — so a
malformed taxon can never silently participate — and a failed build
raises a `ModelError` identifying an offending taxon, before any solve
(the builder performs no solver call). -/
theorem build_validation (ts : List TaxonSpec) :
    ((∃ M, build_community ts = .ok M) ↔
      ∀ t ∈ ts, t.biomassId ≠ none ∧ 0 < t.abundance) ∧
    (∀ e, build_community ts = .error e →
      ∃ t ∈ ts, t.id = e.offender ∧ (t.biomassId = none ∨ t.abundance ≤ 0)) := by
  constructor
  · rw [← checkTaxa_ok_iff]
    cases h : checkTaxa ts with
    | ok u => cases u; simp [build_community, h]
    | error e => simp [build_community, h]
  · intro e he
    apply checkTaxa_error ts e
    cases h : checkTaxa ts with
    | ok u => simp [build_community, h] at he
    | error e2 =>
      simp only [build_community, h, Except.error.injEq] at he
      rw [← he]

/-- C8 witness: the concrete list `badTaxa` (second taxon has abundance
0) fails to build with an error naming an offending taxon. -/
theorem build_validation_witness :
    ∃ t ∈ badTaxa, t.id = (ModelError.nonPositiveAbundance ("t_bad")).offender ∧
      (t.biomassId = none ∨ t.abundance ≤ 0) :=
  (build_validation badTaxa).2 (.nonPositiveAbundance ("t_bad"))
    (by norm_num [build_community, checkTaxa, badTaxa, Option.some_ne_none])

/-- C10: when the taxonomy passed to the Community constructor has no
abundance column, every taxon receives the same default quantity and,
after internal normalization, the same relative abundance 1/n for n
taxa. -/
theorem default_abundance (t : Taxonomy) (n : ℕ)
    (hcol : t.abundanceCol = none) (hlen : t.ids.length = n) (hn : 0 < n) :
    relativeAbundances t = List.replicate n ((n : ℚ)⁻¹) := by
  subst hlen
  have hsum : (List.replicate t.ids.length (1 : ℚ)).sum = (t.ids.length : ℚ) := by
    simp [List.sum_replicate]
  simp [relativeAbundances, rawAbundances, hcol, hsum, List.map_replicate, one_div]

/-- C10 witness: a five-taxon taxonomy without an abundance column gets
relative abundance 1/5 (that is, 0.2) for every taxon. -/
theorem default_abundance_witness :
    relativeAbundances exTaxonomy = List.replicate 5 ((5 : ℚ)⁻¹) :=
  default_abundance exTaxonomy 5 rfl rfl (by norm_num)

/-- C2: with the community growth fixed at the COMMUNITY_BOUND optimum
`mu` (in the tight-inequality form the implementation uses), the
REGULARIZE output achieves exactly `mu`, and among all floored-feasible
flux vectors achieving `mu` it minimizes the sum of squared growth-rate
deviations from the stage-2 individual maxima when the backend is
QP-capable, and the sum of absolute (Manhattan) deviations when only an
LP-capable backend is available. -/
theorem regularize_selects_min_deviation {n : ℕ} (C : TCommunity n)
    (maxg : Fin n → ℚ) (atol frac mu : ℚ) (qpCapable : Bool) (g : Fin n → ℚ)
    (hopt : IsCommunityBoundOpt C maxg atol frac mu)
    (hreg : IsRegularizedIneq C maxg atol frac
      (select_regularization qpCapable) mu g) :
    communityGrowth g = mu ∧
    (qpCapable = true → ∀ h, flooredFeasible C maxg atol frac h →
      communityGrowth h = mu → sqDeviation maxg g ≤ sqDeviation maxg h) ∧
    (qpCapable = false → ∀ h, flooredFeasible C maxg atol frac h →
      communityGrowth h = mu → absDeviation maxg g ≤ absDeviation maxg h) := by
  obtain ⟨hfeas, hge, hmin⟩ := hreg
  have hle : communityGrowth g ≤ mu := hopt.2 ⟨g, hfeas, rfl⟩
  refine ⟨le_antisymm hle hge, ?_, ?_⟩
  · intro hq h hh hmu
    have := hmin h hh (le_of_eq hmu.symm)
    simpa [select_regularization, hq, deviation] using this
  · intro hq h hh hmu
    have := hmin h hh (le_of_eq hmu.symm)
    simpa [select_regularization, hq, deviation] using this

/-- C2 witness: on the shared-substrate community at fraction 1/2 with a
QP-capable backend, the symmetric point is regularized and achieves the
stage optimum 1. -/
theorem regularize_selects_min_deviation_witness :
    IsCommunityBoundOpt exShare (fun _ => 1) (1 / 2) (1 / 2) 1 ∧
    communityGrowth halfPoint = 1 :=
  ⟨exShare_bound_half,
    (regularize_selects_min_deviation exShare (fun _ => 1) (1 / 2) (1 / 2) 1
      true halfPoint exShare_bound_half
      (by simpa [select_regularization] using exShare_reg_half)).1⟩

lemma sq_midpoint_sum {n : ℕ} (maxg g1 g2 : Fin n → ℚ) :
    4 * sqDeviation maxg (fun i => (g1 i + g2 i) / 2) +
      (∑ i, (g1 i - g2 i) ^ 2) =
      2 * (sqDeviation maxg g1 + sqDeviation maxg g2) := by
  unfold sqDeviation
  rw [Finset.mul_sum, ← Finset.sum_add_distrib, ← Finset.sum_add_distrib,
    Finset.mul_sum]
  exact Finset.sum_congr rfl (fun i _ => by ring)

/-- C9: the regularized quadratic solve is deterministic in the
growth-rate vector: over a convex community polytope, any two REGULARIZE
outputs for identical community, abundances, medium, fraction and
minimal community growth are exactly equal, hence solving twice with a
deterministic backend yields growth-rate vectors identical within any
nonnegative `atol`. -/
theorem regularized_idempotent {n : ℕ} (C : TCommunity n) (maxg : Fin n → ℚ)
    (atol frac mu : ℚ) (g1 g2 : Fin n → ℚ) (hconv : Convex ℚ C.G)
    (hatol : 0 ≤ atol)
    (h1 : IsRegularizedIneq C maxg atol frac true mu g1)
    (h2 : IsRegularizedIneq C maxg atol frac true mu g2) :
    g1 = g2 ∧ ∀ i, |g1 i - g2 i| ≤ atol := by
  obtain ⟨⟨hG1, hfl1⟩, hge1, hmin1⟩ := h1
  obtain ⟨⟨hG2, hfl2⟩, hge2, hmin2⟩ := h2
  have e1 : sqDeviation maxg g1 ≤ sqDeviation maxg g2 := by
    simpa [deviation] using hmin1 g2 ⟨hG2, hfl2⟩ hge2
  have e2 : sqDeviation maxg g2 ≤ sqDeviation maxg g1 := by
    simpa [deviation] using hmin2 g1 ⟨hG1, hfl1⟩ hge1
  have hmidG : (fun i => (g1 i + g2 i) / 2) ∈ C.G := by
    have hsmul : ((1 : ℚ) / 2) • g1 + ((1 : ℚ) / 2) • g2 =
        (fun i => (g1 i + g2 i) / 2) := by
      funext i
      simp only [Pi.add_apply, Pi.smul_apply, smul_eq_mul]
      ring
    have := hconv hG1 hG2 (by norm_num : (0 : ℚ) ≤ 1 / 2)
      (by norm_num : (0 : ℚ) ≤ 1 / 2) (by norm_num)
    rwa [hsmul] at this
  have hmidfl : ∀ i, atol ≤ maxg i →
      frac * maxg i ≤ (g1 i + g2 i) / 2 := by
    intro i hi
    have := hfl1 i hi
    have := hfl2 i hi
    linarith
  have hmidge : mu ≤ communityGrowth (fun i => (g1 i + g2 i) / 2) := by
    have hsum : communityGrowth (fun i => (g1 i + g2 i) / 2) =
        (communityGrowth g1 + communityGrowth g2) / 2 := by
      unfold communityGrowth
      rw [← Finset.sum_div, Finset.sum_add_distrib]
    rw [hsum]
    linarith
  have hmidmin : sqDeviation maxg g1 ≤
      sqDeviation maxg (fun i => (g1 i + g2 i) / 2) := by
    simpa [deviation] using
      hmin1 (fun i => (g1 i + g2 i) / 2) ⟨hmidG, hmidfl⟩ hmidge
  have hkey := sq_midpoint_sum maxg g1 g2
  have hDnonneg : (0 : ℚ) ≤ ∑ i, (g1 i - g2 i) ^ 2 :=
    Finset.sum_nonneg (fun i _ => sq_nonneg _)
  have hDzero : (∑ i, (g1 i - g2 i) ^ 2) = 0 := by linarith
  have heq : g1 = g2 := by
    funext i
    have hterm := (Finset.sum_eq_zero_iff_of_nonneg
      (fun j _ => sq_nonneg (g1 j - g2 j))).mp hDzero i (Finset.mem_univ i)
    have : g1 i - g2 i = 0 := by
      exact pow_eq_zero_iff (n := 2) (by norm_num) |>.mp hterm
    linarith
  refine ⟨heq, ?_⟩
  intro i
  rw [heq]
  simpa using hatol

/-- C9 witness: on the convex shared-substrate community, the symmetric
regularized point compared with itself. -/
theorem regularized_idempotent_witness :
    Convex ℚ exShare.G ∧ halfPoint = halfPoint ∧
      ∀ i, |halfPoint i - halfPoint i| ≤ 1 / 2 := by
  have h := regularized_idempotent exShare (fun _ => 1) (1 / 2) (1 / 2) 1
    halfPoint halfPoint exShare_convex (by norm_num)
    exShare_reg_half exShare_reg_half
  exact ⟨exShare_convex, h.1, h.2⟩

/-- C4: a taxon whose stage-2 individual maximum lies below `atol` is
not in the growing record, imposes no lower-bound constraint in the
COMMUNITY_BOUND stage (the floored feasible set only constrains the
other taxa), and the regularized solution reports growth rate 0 for it
while the run still completes successfully instead of raising an
error. -/
theorem nongrowing_taxon_absorbed {n : ℕ} (C : TCommunity n)
    (maxg : Fin n → ℚ) (atol frac mu : ℚ) (quad : Bool) (g : Fin n → ℚ)
    (i : Fin n)
    (hmax : ∀ j, IsIndividualMax C j (maxg j))
    (hi : maxg i < atol)
    (hopt : IsCommunityBoundOpt C maxg atol frac mu)
    (hreg : IsRegularizedIneq C maxg atol frac quad mu g) :
    i ∉ growingSet maxg atol ∧
    (∀ h, flooredFeasible C maxg atol frac h ↔
      (h ∈ C.G ∧ ∀ j, j ≠ i → atol ≤ maxg j → frac * maxg j ≤ h j)) ∧
    resultRates atol g i = 0 ∧
    TradeoffRun C maxg atol frac quad (.ok (resultRates atol g)) := by
  refine ⟨?_, ?_, ?_, ?_⟩
  · simp only [growingSet, Finset.mem_filter, Finset.mem_univ, true_and]
    exact not_le.mpr hi
  · intro h
    constructor
    · rintro ⟨hG, hfl⟩
      exact ⟨hG, fun j _ hj => hfl j hj⟩
    · rintro ⟨hG, hfl⟩
      refine ⟨hG, fun j hj => ?_⟩
      by_cases hji : j = i
      · subst hji
        exact absurd hj (not_le.mpr hi)
      · exact hfl j hji hj
  · have hGg : g ∈ C.G := hreg.1.1
    have hub : g i ≤ maxg i := (hmax i).2 ⟨g, hGg, rfl⟩
    have : g i < atol := lt_of_le_of_lt hub hi
    simp [resultRates, this]
  · exact TradeoffRun.success mu g hmax hopt hreg

/-- C4 witness: in the community `exZero` taxon 1 has individual maximum
0, below `atol` = 1/2; the run succeeds and reports growth 0 for it. -/
theorem nongrowing_taxon_absorbed_witness :
    maxgZero 1 < 1 / 2 ∧ resultRates (1 / 2) zeroPoint 1 = 0 ∧
      TradeoffRun exZero maxgZero (1 / 2) (1 / 2) true
        (.ok (resultRates (1 / 2) zeroPoint)) := by
  have h := nongrowing_taxon_absorbed exZero maxgZero (1 / 2) (1 / 2) 1 true
    zeroPoint 1 exZero_indMax (by norm_num [maxgZero]) exZero_bound
    (exZero_reg true)
  exact ⟨by norm_num [maxgZero], h.2.2.1, h.2.2.2⟩

/-- C5: with the individual maxima recorded, a tradeoff run surfaces
`infeasibleTradeoff` exactly when the COMMUNITY_BOUND stage has no
feasible point under the current fractional floors; that error is a
distinct value from the numerical-solver failure; and the state machine
has no other error branch — in particular a single taxon's inability to
grow is absorbed into the growing record and never raised. -/
theorem infeasible_tradeoff_iff {n : ℕ} (C : TCommunity n)
    (maxg : Fin n → ℚ) (atol frac : ℚ) (quad : Bool)
    (hmax : ∀ i, IsIndividualMax C i (maxg i)) :
    (TradeoffRun C maxg atol frac quad (.err .infeasibleTradeoff) ↔
      ¬ ∃ g, flooredFeasible C maxg atol frac g) ∧
    (MicomError.infeasibleTradeoff ≠ MicomError.solverNumerical) ∧
    (∀ o, TradeoffRun C maxg atol frac quad o →
      (∃ r, o = .ok r) ∨ o = .err .infeasibleTradeoff) := by
  refine ⟨⟨?_, ?_⟩, by decide, ?_⟩
  · intro h
    cases h with
    | infeasible hmax2 hinf => exact hinf
  · intro hinf
    exact TradeoffRun.infeasible hmax hinf
  · intro o h
    cases h with
    | success mu g hm ho hr => exact Or.inl ⟨_, rfl⟩
    | infeasible hm hi => exact Or.inr rfl

/-- C5 witness: on the shared-substrate community the fraction-1 floors
are jointly unsatisfiable, and the run indeed surfaces the infeasible
tradeoff error. -/
theorem infeasible_tradeoff_iff_witness :
    TradeoffRun exShare (fun _ => 1) (1 / 2) 1 true
      (.err .infeasibleTradeoff) :=
  ((infeasible_tradeoff_iff exShare (fun _ => 1) (1 / 2) 1 true
    exShare_indMax).1).mpr exShare_floor_one_empty

/-- C3 counterexample: on the community `exPin` (both taxa can grow:
individual maxima 4 and 2, `atol` = 1) take fractions 1/8 < 1/2, both in
(0,1).  The COMMUNITY_BOUND optima and the (unique) regularized
solutions are exhibited at both fractions, yet the number of taxa with
positive reported growth is strictly smaller at the smaller fraction (1
versus 2): taxon 1 is pinned to its floor `frac * 2`, which falls below
`atol` at fraction 1/8 and is zeroed by result extraction.  So the
claimed count monotonicity fails (total growth is still monotone:
4 - 2/8 ≥ 4 - 2/2). -/
theorem tradeoff_count_not_monotone :
    (1 / 8 : ℚ) < 1 / 2 ∧
    (∀ i, IsIndividualMax exPin i (maxgPin i)) ∧
    IsCommunityBoundOpt exPin maxgPin 1 (1 / 8) (4 - 2 * (1 / 8)) ∧
    IsCommunityBoundOpt exPin maxgPin 1 (1 / 2) (4 - 2 * (1 / 2)) ∧
    IsRegularizedIneq exPin maxgPin 1 (1 / 8) true (4 - 2 * (1 / 8))
      (pinPoint (1 / 8)) ∧
    IsRegularizedIneq exPin maxgPin 1 (1 / 2) true (4 - 2 * (1 / 2))
      (pinPoint (1 / 2)) ∧
    (∀ g, IsRegularizedIneq exPin maxgPin 1 (1 / 8) true (4 - 2 * (1 / 8)) g →
      g = pinPoint (1 / 8)) ∧
    (∀ g, IsRegularizedIneq exPin maxgPin 1 (1 / 2) true (4 - 2 * (1 / 2)) g →
      g = pinPoint (1 / 2)) ∧
    countPositive (resultRates 1 (pinPoint (1 / 8))) <
      countPositive (resultRates 1 (pinPoint (1 / 2))) := by
  refine ⟨by norm_num, exPin_indMax,
    exPin_bound (by norm_num) (by norm_num),
    exPin_bound (by norm_num) (by norm_num),
    exPin_reg (by norm_num) (by norm_num) true,
    exPin_reg (by norm_num) (by norm_num) true,
    fun g hg => exPin_unique g hg.1 hg.2.1,
    fun g hg => exPin_unique g hg.1 hg.2.1, ?_⟩
  have e1 : countPositive (resultRates 1 (pinPoint (1 / 8))) = 1 := by
    rw [countPositive, Finset.card_filter, Fin.sum_univ_two]
    norm_num [resultRates, pinPoint]
  have e2 : countPositive (resultRates 1 (pinPoint (1 / 2))) = 2 := by
    rw [countPositive, Finset.card_filter, Fin.sum_univ_two]
    norm_num [resultRates, pinPoint]
  rw [e1, e2]
  norm_num

/-- C3 amended: for tradeoff fractions f1 < f2 in (0,1) on the same
community, medium and abundances, the COMMUNITY_BOUND optimum at f1 is
at least the optimum at f2 (monotone relaxation of total community
growth); moreover in either regularized solution every taxon recorded
as growing keeps raw growth at least `fraction * individual_max`, which
is strictly positive — but the count of taxa with positive reported
growth is not monotone, because a growing taxon's floor can fall below
`atol` and be zeroed in result extraction (see the counterexample). -/
theorem tradeoff_growth_monotone {n : ℕ} (C : TCommunity n)
    (maxg : Fin n → ℚ) (atol f1 f2 mu1 mu2 : ℚ) (quad : Bool)
    (g1 g2 : Fin n → ℚ)
    (hatol : 0 < atol) (hf1 : 0 < f1) (h12 : f1 < f2) (hf2 : f2 < 1)
    (hopt1 : IsCommunityBoundOpt C maxg atol f1 mu1)
    (hopt2 : IsCommunityBoundOpt C maxg atol f2 mu2)
    (hreg1 : IsRegularizedIneq C maxg atol f1 quad mu1 g1)
    (hreg2 : IsRegularizedIneq C maxg atol f2 quad mu2 g2) :
    mu2 ≤ mu1 ∧
    (∀ i, atol ≤ maxg i → f1 * maxg i ≤ g1 i ∧ 0 < g1 i) ∧
    (∀ i, atol ≤ maxg i → f2 * maxg i ≤ g2 i ∧ 0 < g2 i) := by
  refine ⟨?_, ?_, ?_⟩
  · obtain ⟨g, ⟨hG, hfl⟩, hgrowth⟩ := hopt2.1
    apply hopt1.2
    refine ⟨g, ⟨hG, fun i hi => ?_⟩, hgrowth⟩
    have hm : 0 ≤ maxg i := le_trans hatol.le hi
    have : f1 * maxg i ≤ f2 * maxg i := mul_le_mul_of_nonneg_right h12.le hm
    exact le_trans this (hfl i hi)
  · intro i hi
    have hfloor := hreg1.1.2 i hi
    have hpos : 0 < f1 * maxg i := mul_pos hf1 (lt_of_lt_of_le hatol hi)
    exact ⟨hfloor, lt_of_lt_of_le hpos hfloor⟩
  · intro i hi
    have hfloor := hreg2.1.2 i hi
    have hpos : 0 < f2 * maxg i :=
      mul_pos (lt_trans hf1 h12) (lt_of_lt_of_le hatol hi)
    exact ⟨hfloor, lt_of_lt_of_le hpos hfloor⟩

/-- C3 amended witness: on `exPin` at fractions 1/8 < 1/2 the total
growth is monotone (3 = 4 - 2/2 ≤ 4 - 2/8 = 15/4) and both growing taxa
keep positive raw growth at both fractions. -/
theorem tradeoff_growth_monotone_witness :
    (4 : ℚ) - 2 * (1 / 2) ≤ 4 - 2 * (1 / 8) ∧
    (∀ i, (1 : ℚ) ≤ maxgPin i →
      (1 / 8) * maxgPin i ≤ pinPoint (1 / 8) i ∧ 0 < pinPoint (1 / 8) i) :=
  have h := tradeoff_growth_monotone exPin maxgPin 1 (1 / 8) (1 / 2)
    (4 - 2 * (1 / 8)) (4 - 2 * (1 / 2)) true (pinPoint (1 / 8))
    (pinPoint (1 / 2)) (by norm_num) (by norm_num) (by norm_num) (by norm_num)
    (exPin_bound (by norm_num) (by norm_num))
    (exPin_bound (by norm_num) (by norm_num))
    (exPin_reg (by norm_num) (by norm_num) true)
    (exPin_reg (by norm_num) (by norm_num) true)
  ⟨h.1, h.2.1⟩

/-- C1 counterexample: on the shared-substrate community `exShare` the
unconstrained community FBA optimum is 1 and both individual maxima are
1 (each at least `atol` = 1/2), but at fraction 1.0 the COMMUNITY_BOUND
stage is infeasible — no flux vector grants every growing taxon its full
individual maximum simultaneously — so the stage has no optimum at all
and the run surfaces `infeasibleTradeoff` instead of returning a total
community growth equal to the FBA optimum. -/
theorem fraction_one_not_plain_fba :
    IsFBAOptimum exShare 1 ∧
    (∀ i, IsIndividualMax exShare i 1) ∧
    (¬ ∃ g, flooredFeasible exShare (fun _ => 1) (1 / 2) 1 g) ∧
    (¬ ∃ mu, IsCommunityBoundOpt exShare (fun _ => 1) (1 / 2) 1 mu) ∧
    TradeoffRun exShare (fun _ => 1) (1 / 2) 1 true
      (.err .infeasibleTradeoff) := by
  refine ⟨exShare_fba, exShare_indMax, exShare_floor_one_empty, ?_, ?_⟩
  · rintro ⟨mu, ⟨⟨g, hg, _⟩, _⟩⟩
    exact exShare_floor_one_empty ⟨g, hg⟩
  · exact TradeoffRun.infeasible exShare_indMax exShare_floor_one_empty

/-- C1 amended: whenever every taxon can grow (individual maximum at
least `atol`) and the fraction-1.0 floors admit a feasible point at all,
the COMMUNITY_BOUND optimum at fraction 1.0 is exactly the unconstrained
community FBA optimum (and it is the unique stage optimum): pure egoism
then reduces to single-stage maximization.  When the floors are jointly
infeasible the run raises `infeasibleTradeoffError` instead (see the
counterexample). -/
theorem fraction_one_equals_fba {n : ℕ} (C : TCommunity n)
    (maxg : Fin n → ℚ) (atol mumax : ℚ)
    (hmax : ∀ i, IsIndividualMax C i (maxg i))
    (hgrow : ∀ i, atol ≤ maxg i)
    (hfeas : ∃ g, flooredFeasible C maxg atol 1 g)
    (hfba : IsFBAOptimum C mumax) :
    IsCommunityBoundOpt C maxg atol 1 mumax ∧
    ∀ mu, IsCommunityBoundOpt C maxg atol 1 mu → mu = mumax := by
  obtain ⟨g0, hg0⟩ := hfeas
  have hpin : ∀ i, g0 i = maxg i := by
    intro i
    have hub : g0 i ≤ maxg i := (hmax i).2 ⟨g0, hg0.1, rfl⟩
    have hlb : maxg i ≤ g0 i := by
      have := hg0.2 i (hgrow i)
      simpa using this
    exact le_antisymm hub hlb
  have hg0growth : communityGrowth g0 = ∑ i, maxg i := by
    unfold communityGrowth
    exact Finset.sum_congr rfl (fun i _ => hpin i)
  have hub : ∀ h ∈ C.G, communityGrowth h ≤ ∑ i, maxg i := by
    intro h hh
    exact Finset.sum_le_sum (fun i _ => (hmax i).2 ⟨h, hh, rfl⟩)
  have hmumax : mumax = ∑ i, maxg i := by
    obtain ⟨h, hh, hgrowth⟩ := hfba.1
    have h1 : mumax ≤ ∑ i, maxg i := hgrowth ▸ hub h hh
    have h2 : ∑ i, maxg i ≤ mumax := hg0growth ▸ hfba.2 ⟨g0, hg0.1, rfl⟩
    exact le_antisymm h1 h2
  have hopt : IsCommunityBoundOpt C maxg atol 1 mumax := by
    constructor
    · exact ⟨g0, hg0, hg0growth.trans hmumax.symm⟩
    · rintro x ⟨h, ⟨hhG, _⟩, rfl⟩
      rw [hmumax]
      exact hub h hhG
  exact ⟨hopt, fun mu hmu => hmu.unique hopt⟩

/-- C1 amended witness: on the independent-substrate community `exFree`
the fraction-1.0 floors are satisfiable and the stage optimum equals the
FBA optimum 2. -/
theorem fraction_one_equals_fba_witness :
    IsCommunityBoundOpt exFree (fun _ => 1) (1 / 2) 1 2 :=
  (fraction_one_equals_fba exFree (fun _ => 1) (1 / 2) 2 exFree_indMax
    (fun _ => by norm_num) ⟨fun _ => 1, exFree_floor_one⟩ exFree_fba).1

end Micom
